import Mathlib

/-!
Verification of the code-loading subsystem of `src/load.c` (Gauche runtime):
feature registry (`Scm_Require`/`Scm_Provide`/`Scm_ProvidedP`), path resolver
(`Scm_FindFile`), load session (`Scm_VMLoadFromPort`), and the dynamic-object
registry (`Scm_DynLoad`).  Scheme heap values that the registry manipulates are
embedded as the inductive `ScmVal`; the C list primitives (`Scm_Member`,
`Scm_DeleteX`, `Scm_Assoc`, `Scm_AssocDeleteX`, `Scm_Acons`) are embedded as
functions over `List ScmVal`.
-/

namespace Load

/-- Scheme objects as far as the load subsystem stores them in its registries:
feature names are strings, `providing`/`waiting` entries are pairs whose cdr
(resp. car) is a VM (thread) object, load history entries hold ports and line
numbers.  `vmV`/`portV` carry an identity; `equal?` on such non-aggregate
objects degenerates to `eq?`, i.e. identity comparison, which the derived
structural equality models. -/
inductive ScmVal where
  | str : String → ScmVal
  | vmV : Nat → ScmVal
  | portV : Nat → ScmVal
  | intV : Nat → ScmVal
  | falseV : ScmVal
  | nilV : ScmVal
  | pairV : ScmVal → ScmVal → ScmVal
deriving DecidableEq, Repr

/-- `SCM_CDR`, with the usual don't-care value on non-pairs. -/
def cdrOf : ScmVal → ScmVal
  | .pairV _ b => b
  | _ => .nilV

/-- `Scm_Member(x, l, SCM_CMP_EQUAL)` viewed as a boolean: is some element of
`l` `equal?` to `x`. -/
def scmMember (x : ScmVal) (l : List ScmVal) : Bool :=
  l.any (fun y => x == y)

/-- `Scm_DeleteX(x, l, SCM_CMP_EQUAL)`: remove every element `equal?` to `x`. -/
def scmDeleteX (x : ScmVal) (l : List ScmVal) : List ScmVal :=
  l.filter (fun y => !(x == y))

/-- `Scm_Assoc(x, alist, SCM_CMP_EQUAL)`: first pair whose car is `equal?` to
`x` (non-pair elements never match). -/
def scmAssoc (x : ScmVal) (l : List ScmVal) : Option ScmVal :=
  l.find? (fun y => match y with | .pairV a _ => x == a | _ => false)

/-- `Scm_AssocDeleteX(x, alist, cmp)`: drop every pair whose car matches `x`.
The code uses it with `SCM_CMP_EQUAL` on `providing` (string keys) and with
`SCM_CMP_EQ` on `waiting` (VM-object keys); on both key kinds the comparison
coincides with the structural equality of `ScmVal`. -/
def scmAssocDeleteX (x : ScmVal) (l : List ScmVal) : List ScmVal :=
  l.filter (fun y => match y with | .pairV a _ => !(x == a) | _ => true)

/-- `Scm_Assq(x, alist)`: first pair whose car is `eq?` to `x`; only ever used
on `waiting`, whose keys are VM objects, where `eq?` is identity. -/
def scmAssq (x : ScmVal) (l : List ScmVal) : Option ScmVal :=
  l.find? (fun y => match y with | .pairV a _ => x == a | _ => false)

/-- The feature-registry portion of the static `ldinfo` record:
`provided` (list of feature strings), `providing` (alist feature ↦ VM) and
`waiting` (alist VM ↦ feature), all guarded by `prov_mutex` in the source. -/
structure LdInfo where
  provided : List ScmVal
  providing : List ScmVal
  waiting : List ScmVal
deriving DecidableEq, Repr

/-- `Scm_Provide` (load.c:1024–1038), the registry effect of the critical
section under `prov_mutex`: cons the feature onto `provided` unless already a
member; then test `Scm_Member(feature, providing, SCM_CMP_EQUAL)` and, when it
holds, `Scm_DeleteX` the feature from `providing`.  Note the source really
does use `Scm_Member`/`Scm_DeleteX` (element-wise `equal?`) on the alist
`providing`, not `Scm_Assoc`/`Scm_AssocDeleteX`. -/
def Scm_Provide (feature : String) (s : LdInfo) : LdInfo :=
  let f := ScmVal.str feature
  let s1 : LdInfo :=
    if scmMember f s.provided then s
    else { s with provided := f :: s.provided }
  if scmMember f s1.providing then
    { s1 with providing := scmDeleteX f s1.providing }
  else s1

/-- `Scm_ProvidedP` (load.c:1040–1047): membership snapshot of `provided`. -/
def Scm_ProvidedP (feature : String) (s : LdInfo) : Bool :=
  scmMember (ScmVal.str feature) s.provided

/-- The dependency-loop walk of `Scm_Require` (load.c:971–981): starting from
the `providing` entry `p` of the requested feature, chase
`waiting`/`providing` links and report a loop when some provider on the chain
is the calling VM.  The C `for(;;)` has no structural decrease (it terminates
because each thread waits on at most one feature); fuel bounds the chase, and
the source's `SCM_ASSERT(SCM_PAIRP(p))` on a failed `providing` lookup is
modelled as stopping the walk. -/
def loopWalk (self : Nat) (s : LdInfo) : ScmVal → Nat → Bool
  | _, 0 => false
  | p, fuel + 1 =>
    match scmAssq (cdrOf p) s.waiting with
    | none => false
    | some q =>
      match scmAssoc (cdrOf q) s.providing with
      | none => false
      | some p' =>
        if cdrOf p' == ScmVal.vmV self then true
        else loopWalk self s p' fuel

/-- Outcome of `Scm_Require` as seen by the caller: return 0 with
`packet->loaded` still false (feature already provided), return 0 with
`packet->loaded = TRUE` (file loaded), the loop error, the load error
(return −1), or — sequential model only — the branch that would block on
`prov_cv` waiting for another thread. -/
inductive ReqOutcome where
  | alreadyOk | loadedOk | cycleErr | loadErr | wouldWait
deriving DecidableEq, Repr

/-- `Scm_Require` (load.c:938–1022) in a sequential model.  `self` is the
calling VM's identity; the loaded file's interaction with the registry is its
sequence of `provide` calls `bodyProvides` (executed between the claim and its
release), and `loadOk` tells whether `Scm_Load` returned ≥ 0.  Steps mirror
the source: check `provided`; check `providing` (self-loop, then the waiting
chain, else the thread would block on the condition variable); otherwise
`Scm_Acons` the claim, run the load, and on either result `Scm_AssocDeleteX`
the claim and signal. -/
def Scm_Require (self : Nat) (feature : String) (bodyProvides : List String)
    (loadOk : Bool) (s : LdInfo) : ReqOutcome × LdInfo :=
  let f := ScmVal.str feature
  if scmMember f s.provided then (.alreadyOk, s)
  else
    match scmAssoc f s.providing with
    | some p =>
      if cdrOf p == ScmVal.vmV self then (.cycleErr, s)
      else if loopWalk self s p (s.waiting.length + 1) then (.cycleErr, s)
      else (.wouldWait, s)
    | none =>
      let s1 : LdInfo := { s with providing := ScmVal.pairV f (ScmVal.vmV self) :: s.providing }
      let s2 := bodyProvides.foldl (fun st g => Scm_Provide g st) s1
      let s3 : LdInfo := { s2 with providing := scmAssocDeleteX f s2.providing }
      (if loadOk then .loadedOk else .loadErr, s3)

/-- The atomic registry transitions of the feature registry: each constructor
is one critical section under `prov_mutex` in `Scm_Require`/`Scm_Provide`
(the mutex is free between them, so these delimit the observable states). -/
inductive RegStep : LdInfo → LdInfo → Prop where
  /-- `Scm_Provide` (load.c:1028–1036), called by loaded files or directly. -/
  | provide (f : String) (s : LdInfo) : RegStep s (Scm_Provide f s)
  /-- The claim section of `Scm_Require` (load.c:956–991) when the feature is
  neither provided nor being provided: `Scm_Acons` it onto `providing`. -/
  | claim (f : String) (t : Nat) (s : LdInfo)
      (h1 : scmMember (ScmVal.str f) s.provided = false)
      (h2 : scmAssoc (ScmVal.str f) s.providing = none) :
      RegStep s { s with providing := ScmVal.pairV (ScmVal.str f) (ScmVal.vmV t) :: s.providing }
  /-- The post-load section of `Scm_Require` (load.c:1008–1019): release the
  claim (on success or failure) and signal. -/
  | unclaim (f : String) (s : LdInfo) :
      RegStep s { s with providing := scmAssocDeleteX (ScmVal.str f) s.providing }
  /-- Registering in `waiting` before blocking on `prov_cv` (load.c:983–984):
  the feature is being provided by another VM and no loop was detected. -/
  | waitAdd (f : String) (t : Nat) (p : ScmVal) (s : LdInfo)
      (h1 : scmMember (ScmVal.str f) s.provided = false)
      (h2 : scmAssoc (ScmVal.str f) s.providing = some p)
      (h3 : ¬ cdrOf p = ScmVal.vmV t)
      (h4 : loopWalk t s p (s.waiting.length + 1) = false) :
      RegStep s { s with waiting := ScmVal.pairV (ScmVal.vmV t) (ScmVal.str f) :: s.waiting }
  /-- Deregistering from `waiting` after waking up (load.c:985). -/
  | waitDel (t : Nat) (s : LdInfo) :
      RegStep s { s with waiting := scmAssocDeleteX (ScmVal.vmV t) s.waiting }

/-- Registry states reachable from `s` by `require`/`provide` activity. -/
def RegReachable (s t : LdInfo) : Prop := Relation.ReflTransGen RegStep s t

/-- The registry right after `Scm__InitLoad` (load.c:1297–1305): the built-in
seed features are provided, nothing is being provided or waited for. -/
def ldinit : LdInfo :=
  { provided := [ScmVal.str "srfi-2", ScmVal.str "srfi-6", ScmVal.str "srfi-8",
                 ScmVal.str "srfi-10", ScmVal.str "srfi-17"],
    providing := [], waiting := [] }

/-! Helper lemmas about the embedded list primitives. -/

theorem scmMember_cons_self (x : ScmVal) (l : List ScmVal) :
    scmMember x (x :: l) = true := by
  simp [scmMember]

theorem scmMember_deleteX_self (x : ScmVal) (l : List ScmVal) :
    scmMember x (scmDeleteX x l) = false := by
  rw [Bool.eq_false_iff]
  intro h
  rcases (by simpa [scmMember, List.any_eq_true] using h :
      ∃ y ∈ scmDeleteX x l, x == y) with ⟨y, hy, hxy⟩
  have hmem : y ∈ l ∧ ¬ x = y := by
    simpa [scmDeleteX, List.mem_filter] using hy
  rw [beq_iff_eq] at hxy
  exact hmem.2 hxy

/-- The `provided` list after `Scm_Provide` (the `providing` branch of the
function does not touch it). -/
theorem provide_provided (g : String) (s : LdInfo) :
    (Scm_Provide g s).provided =
      if scmMember (ScmVal.str g) s.provided then s.provided
      else ScmVal.str g :: s.provided := by
  unfold Scm_Provide
  cases hg : scmMember (ScmVal.str g) s.provided <;> simp [hg] <;> split <;> rfl

/-- The `providing` list after `Scm_Provide`. -/
theorem provide_providing (g : String) (s : LdInfo) :
    (Scm_Provide g s).providing =
      if scmMember (ScmVal.str g) s.providing then
        scmDeleteX (ScmVal.str g) s.providing
      else s.providing := by
  unfold Scm_Provide
  cases hg : scmMember (ScmVal.str g) s.provided <;>
    cases hp : scmMember (ScmVal.str g) s.providing <;> simp [hg, hp]

/-- `Scm_Provide` never touches `waiting`. -/
theorem provide_waiting (g : String) (s : LdInfo) :
    (Scm_Provide g s).waiting = s.waiting := by
  unfold Scm_Provide
  cases hg : scmMember (ScmVal.str g) s.provided <;> simp [hg] <;> split <;> rfl

/-- When the feature is already in `provided` and absent from `providing`,
`Scm_Provide` is the identity on the registry. -/
theorem provide_noop (f : String) (s : LdInfo)
    (h1 : scmMember (ScmVal.str f) s.provided = true)
    (h2 : scmMember (ScmVal.str f) s.providing = false) :
    Scm_Provide f s = s := by
  unfold Scm_Provide
  simp [h1, h2]

/-- Effect of one `Scm_Provide` on membership in `provided`. -/
theorem scmMember_provide_provided (f g : String) (s : LdInfo) :
    scmMember (ScmVal.str f) ((Scm_Provide g s).provided) = true ↔
      (f = g ∨ scmMember (ScmVal.str f) s.provided = true) := by
  rw [provide_provided]
  cases hg : scmMember (ScmVal.str g) s.provided with
  | true =>
    simp only [if_true]
    constructor
    · exact fun h => Or.inr h
    · rintro (rfl | h)
      · exact hg
      · exact h
  | false =>
    simp only [if_false, Bool.false_eq_true]
    constructor
    · intro h
      rcases (by simpa [scmMember, List.any_eq_true] using h :
          ∃ y ∈ ScmVal.str g :: s.provided, ScmVal.str f == y) with ⟨y, hy, hxy⟩
      rw [beq_iff_eq] at hxy
      subst hxy
      rcases List.mem_cons.mp hy with h1 | h1
      · exact Or.inl (by injection h1)
      · refine Or.inr ?_
        simp only [scmMember, List.any_eq_true]
        exact ⟨_, h1, by simp⟩
    · rintro (rfl | h)
      · exact scmMember_cons_self _ _
      · simp only [scmMember, List.any_cons, Bool.or_eq_true]
        exact Or.inr h

/-- Membership in `provided` after the loaded file's sequence of provides. -/
theorem scmMember_foldl_provide (f : String) (body : List String) (s : LdInfo) :
    scmMember (ScmVal.str f) ((body.foldl (fun st g => Scm_Provide g st) s).provided) = true ↔
      (f ∈ body ∨ scmMember (ScmVal.str f) s.provided = true) := by
  induction body generalizing s with
  | nil => simp
  | cons g gs ih =>
    simp only [List.foldl_cons, List.mem_cons]
    rw [ih, scmMember_provide_provided]
    tauto

/-! Claim theorems for the feature registry. -/

/-- C1: the claim states that `provide(f)` removes `f`'s entry from the
`providing` map.  It does not: `Scm_Provide` guards the removal with
`Scm_Member(feature, ldinfo.providing, SCM_CMP_EQUAL)`, which compares the
feature *string* against the alist's `(feature . thread)` *pairs* and hence
never matches.  Concretely, with `"a"` being provided by VM 1, providing
`"a"` appends it to `provided` but leaves the `providing` entry in place. -/
theorem c1_provide_keeps_providing_entry :
    Scm_Provide "a"
      { provided := [], waiting := [],
        providing := [ScmVal.pairV (ScmVal.str "a") (ScmVal.vmV 1)] } =
      { provided := [ScmVal.str "a"], waiting := [],
        providing := [ScmVal.pairV (ScmVal.str "a") (ScmVal.vmV 1)] } := by
  decide

/-- C2: the invariant `provided ∩ providing.keys = ∅` fails on a reachable
registry state.  From the post-initialization state, VM 1 claims feature
`"a"` in `Scm_Require` (it is neither provided nor being provided), and then
`Scm_Provide "a"` runs (as the loaded file, or any thread, may do): `"a"` is
now a member of `provided` while its `providing` entry survives, because
`Scm_Provide`'s `Scm_Member` test on the alist never fires. -/
theorem c2_provided_providing_intersection_nonempty :
    RegReachable ldinit
        (Scm_Provide "a" { ldinit with
          providing := [ScmVal.pairV (ScmVal.str "a") (ScmVal.vmV 1)] }) ∧
      Scm_ProvidedP "a"
        (Scm_Provide "a" { ldinit with
          providing := [ScmVal.pairV (ScmVal.str "a") (ScmVal.vmV 1)] }) = true ∧
      scmAssoc (ScmVal.str "a")
        (Scm_Provide "a" { ldinit with
          providing := [ScmVal.pairV (ScmVal.str "a") (ScmVal.vmV 1)] }).providing =
        some (ScmVal.pairV (ScmVal.str "a") (ScmVal.vmV 1)) := by
  refine ⟨?_, by decide, by decide⟩
  have h1 : RegStep ldinit { ldinit with
      providing := [ScmVal.pairV (ScmVal.str "a") (ScmVal.vmV 1)] } := by
    have := RegStep.claim "a" 1 ldinit (by decide) (by decide)
    simpa [ldinit] using this
  have h2 : RegStep { ldinit with
      providing := [ScmVal.pairV (ScmVal.str "a") (ScmVal.vmV 1)] }
      (Scm_Provide "a" { ldinit with
        providing := [ScmVal.pairV (ScmVal.str "a") (ScmVal.vmV 1)] }) :=
    RegStep.provide "a" _
  exact Relation.ReflTransGen.head h1 (Relation.ReflTransGen.single h2)

/-- C3 (counterexample): a `require("a")` that succeeds in loading a file
whose body never calls `provide` returns success (`packet->loaded = TRUE`,
return value 0), yet `provided?("a")` is false afterwards — `Scm_Require`
itself never adds the feature to `provided`. -/
theorem c3_require_success_without_provided :
    (Scm_Require 1 "a" [] true { provided := [], providing := [], waiting := [] }).1 =
        ReqOutcome.loadedOk ∧
      Scm_ProvidedP "a"
        (Scm_Require 1 "a" [] true { provided := [], providing := [], waiting := [] }).2 =
        false := by
  decide

/-- C3 (amended): after a `require(f)` that returns success, `provided?(f)`
is true iff `f` was already provided (the `already` return) or the loaded
file's body provided `f`; in particular a successful load of a file that
never calls `provide(f)` leaves `provided?(f)` false. -/
theorem c3_require_success_provided_iff (self : Nat) (f : String)
    (body : List String) (loadOk : Bool) (s : LdInfo)
    (h : (Scm_Require self f body loadOk s).1 = ReqOutcome.alreadyOk ∨
         (Scm_Require self f body loadOk s).1 = ReqOutcome.loadedOk) :
    Scm_ProvidedP f (Scm_Require self f body loadOk s).2 = true ↔
      ((Scm_Require self f body loadOk s).1 = ReqOutcome.alreadyOk ∨ f ∈ body) := by
  cases hm : scmMember (ScmVal.str f) s.provided with
  | true =>
    have hr : Scm_Require self f body loadOk s = (.alreadyOk, s) := by
      unfold Scm_Require; simp [hm]
    rw [hr]
    simp [Scm_ProvidedP, hm]
  | false =>
    cases ha : scmAssoc (ScmVal.str f) s.providing with
    | some p =>
      exfalso
      have hr1 : (Scm_Require self f body loadOk s).1 = ReqOutcome.cycleErr ∨
          (Scm_Require self f body loadOk s).1 = ReqOutcome.wouldWait := by
        unfold Scm_Require
        simp only [hm, Bool.false_eq_true, if_false, ha]
        cases hc : (cdrOf p == ScmVal.vmV self) with
        | true => simp
        | false =>
          cases hw : loopWalk self s p (s.waiting.length + 1) <;> simp [hw]
      rcases h with h | h <;> rcases hr1 with h1 | h1 <;>
        exact absurd (h.symm.trans h1) (by decide)
    | none =>
      have h1o : (Scm_Require self f body loadOk s).1 =
          (if loadOk then ReqOutcome.loadedOk else ReqOutcome.loadErr) := by
        unfold Scm_Require
        simp [hm, ha]
      have h2o : (Scm_Require self f body loadOk s).2.provided =
          (body.foldl (fun st g => Scm_Provide g st)
            { s with providing :=
                ScmVal.pairV (ScmVal.str f) (ScmVal.vmV self) :: s.providing }).provided := by
        unfold Scm_Require
        simp [hm, ha]
      cases loadOk with
      | false =>
        rw [h1o] at h
        rcases h with h | h <;> exact absurd h (by decide)
      | true =>
        rw [h1o]
        simp only [if_true, Scm_ProvidedP]
        rw [h2o, scmMember_foldl_provide]
        simp [hm]

/-- Witness for the amended C3 theorem at a concrete input: requiring `"a"`
whose file provides `"a"` succeeds and leaves it provided. -/
theorem c3_require_success_provided_iff_witness :
    ((Scm_Require 1 "a" ["a"] true ldinit).1 = ReqOutcome.alreadyOk ∨
        (Scm_Require 1 "a" ["a"] true ldinit).1 = ReqOutcome.loadedOk) ∧
      (Scm_ProvidedP "a" (Scm_Require 1 "a" ["a"] true ldinit).2 = true ↔
        ((Scm_Require 1 "a" ["a"] true ldinit).1 = ReqOutcome.alreadyOk ∨
          "a" ∈ ["a"])) :=
  ⟨by decide, c3_require_success_provided_iff 1 "a" ["a"] true ldinit (by decide)⟩

/-- C9: `provide(f); provide(f)` leaves the registry exactly as a single
`provide(f)` does, from any starting state. -/
theorem c9_provide_idempotent (f : String) (s : LdInfo) :
    Scm_Provide f (Scm_Provide f s) = Scm_Provide f s := by
  apply provide_noop
  · rw [provide_provided]
    cases hg : scmMember (ScmVal.str f) s.provided with
    | true => simpa using hg
    | false => simpa using scmMember_cons_self _ _
  · rw [provide_providing]
    cases hp : scmMember (ScmVal.str f) s.providing with
    | true => simpa using scmMember_deleteX_self _ _
    | false => simpa using hp

/-!
Path resolver: `Scm_FindFile` (load.c:304–355) and its helper `try_suffixes`
(load.c:293–302).  The filesystem is a parameter `isReg : String → Bool`
(`regfilep`, a `stat` probe for a regular file).  `Scm_NormalizePathname`
(the `~` user expansion, external to this file) is the parameter
`expandUser`.  A non-string element of the path list is *not* skipped by the
source: after `Scm_Warn` the loop falls through and applies the unchecked
cast `SCM_STRING(SCM_CAR(lpath))` to it (undefined behavior in C); the
parameter `garbage` gives the byte string that cast would yield. -/

/-- The suffix loop of `try_suffixes`: first `base + s` that is a regular
file. -/
def suffix_loop (isReg : String → Bool) (base : String) : List String → Option String
  | [] => none
  | sfx :: rest =>
    if isReg (base ++ sfx) then some (base ++ sfx)
    else suffix_loop isReg base rest

/-- `try_suffixes` (load.c:293–302): `base` itself if it is a regular file,
else the first suffixed variant that is. -/
def try_suffixes (isReg : String → Bool) (base : String) (suffixes : List String) :
    Option String :=
  if isReg base then some base else suffix_loop isReg base suffixes

/-- The `SCM_STRING` cast on a path-list element: the string itself on a
string, and (undefined behavior in C) some garbage byte string on anything
else. -/
def castString (garbage : ScmVal → String) : ScmVal → String
  | .str s => s
  | v => garbage v

/-- The candidate tried for path element `e`: `dir ++ "/" ++ file` pushed
through `try_suffixes` (load.c:333–335). -/
def tryElem (isReg : String → Bool) (garbage : ScmVal → String) (file : String)
    (suffixes : List String) (e : ScmVal) : Option String :=
  try_suffixes isReg (castString garbage e ++ "/" ++ file) suffixes

/-- Number of `Scm_Warn` calls element `e` triggers: one when it is not a
string (load.c:330–332). -/
def warnOf : ScmVal → Nat
  | .str _ => 0
  | _ => 1

/-- The `SCM_FOR_EACH` loop of `Scm_FindFile` (load.c:329–337): returns the
hit (if any), the remaining tail of the path list after the matching element,
and the number of non-string-element warnings issued.  Note the loop body
runs for non-string elements too — the source warns and falls through. -/
def path_loop (isReg : String → Bool) (garbage : ScmVal → String) (file : String)
    (suffixes : List String) : List ScmVal → Option String × List ScmVal × Nat
  | [] => (none, [], 0)
  | e :: rest =>
    match tryElem isReg garbage file suffixes e with
    | some hit => (some hit, rest, warnOf e)
    | none =>
      let r := path_loop isReg garbage file suffixes rest
      (r.1, r.2.1, warnOf e + r.2.2)

/-- Classification of the filename (load.c:313–325): `~`-expansion, verbatim
absolute/relative prefixes, or the search-path loop.  The DOS drive-letter
branch is compiled only on Cygwin/Windows and is omitted here. -/
inductive FileClass where
  | tilde | verbatim | searchPaths
deriving DecidableEq, Repr

/-- The prefix test of `Scm_FindFile` on the filename bytes. -/
def classify (filename : String) : FileClass :=
  match filename.data with
  | '~' :: _ => .tilde
  | '/' :: _ => .verbatim
  | '.' :: '/' :: _ => .verbatim
  | '.' :: '.' :: '/' :: _ => .verbatim
  | _ => .searchPaths

/-- Errors `Scm_FindFile` can raise. -/
inductive FFErr where
  | emptyFilename | notFound
deriving DecidableEq, Repr

/-- Result of a non-raising `Scm_FindFile` run: the found path (or none),
the value left in the in-out `*paths` argument, and the warning count. -/
structure FFOut where
  result : Option String
  pathsOut : List ScmVal
  warns : Nat
deriving DecidableEq, Repr

/-- `Scm_FindFile` (load.c:304–355).  `quiet` is the
`flags & SCM_LOAD_QUIET_NOFILE` test (the flag is bit 0 of the load flags,
declared in gauche.h).  On a search-path hit, `*paths` receives
`SCM_CDR(lpath)`, the tail after the matching directory; on a quiet total
miss `*paths` becomes nil and `#f` is returned; on a non-quiet miss
`Scm_Error` is raised.  Filenames that skip the search path set `*paths` to
nil up front. -/
def Scm_FindFile (isReg : String → Bool) (garbage : ScmVal → String)
    (expandUser : String → String) (filename : String) (paths : List ScmVal)
    (suffixes : List String) (quiet : Bool) : Except FFErr FFOut :=
  if filename = "" then .error .emptyFilename
  else
    match classify filename with
    | .searchPaths =>
      match path_loop isReg garbage filename suffixes paths with
      | (some hit, rest, w) => .ok ⟨some hit, rest, w⟩
      | (none, _, w) => if quiet then .ok ⟨none, [], w⟩ else .error .notFound
    | .tilde =>
      match try_suffixes isReg (expandUser filename) suffixes with
      | some hit => .ok ⟨some hit, [], 0⟩
      | none => if quiet then .ok ⟨none, [], 0⟩ else .error .notFound
    | .verbatim =>
      match try_suffixes isReg filename suffixes with
      | some hit => .ok ⟨some hit, [], 0⟩
      | none => if quiet then .ok ⟨none, [], 0⟩ else .error .notFound

/-- On a hit, the path loop leaves exactly the tail after the matching
element in the in-out argument. -/
theorem path_loop_hit_tail (isReg : String → Bool) (garbage : ScmVal → String)
    (file : String) (suffixes : List String) (paths : List ScmVal)
    (p : String) (rest : List ScmVal) (w : Nat)
    (h : path_loop isReg garbage file suffixes paths = (some p, rest, w)) :
    ∃ pre e, paths = pre ++ e :: rest ∧
      tryElem isReg garbage file suffixes e = some p := by
  induction paths generalizing w with
  | nil => exact absurd h (by simp [path_loop])
  | cons e es ih =>
    rw [path_loop] at h
    cases ht : tryElem isReg garbage file suffixes e with
    | some hit =>
      rw [ht] at h
      injection h with ha hb
      injection hb with hb hc
      subst hb
      injection ha with ha
      refine ⟨[], e, by simp, ?_⟩
      rw [ht, ha]
    | none =>
      rw [ht] at h
      simp only at h
      injection h with ha hb
      injection hb with hb hc
      have hr : path_loop isReg garbage file suffixes es =
          (some p, rest, (path_loop isReg garbage file suffixes es).2.2) := by
        rw [← ha, ← hb]
      obtain ⟨pre, e2, hsplit, htry⟩ := ih _ hr
      exact ⟨e :: pre, e2, by simp [hsplit], htry⟩

/-- When every element of the path list misses, the loop reports no hit and
an empty tail. -/
theorem path_loop_all_miss (isReg : String → Bool) (garbage : ScmVal → String)
    (file : String) (suffixes : List String) (paths : List ScmVal)
    (h : ∀ e ∈ paths, tryElem isReg garbage file suffixes e = none) :
    (path_loop isReg garbage file suffixes paths).1 = none ∧
      (path_loop isReg garbage file suffixes paths).2.1 = [] := by
  induction paths with
  | nil => exact ⟨rfl, rfl⟩
  | cons e es ih =>
    have he := h e (List.mem_cons_self e es)
    have ihs := ih (fun x hx => h x (List.mem_cons_of_mem e hx))
    rw [path_loop, he]
    exact ⟨ihs.1, ihs.2⟩

/-- C6: when `find-file` searches the path list, (a) a hit overwrites the
in-out paths argument with the tail of the search path after the matching
directory, and (b) a total miss under `quiet-if-missing` returns `#f` — not
an error — and leaves the paths argument empty. -/
theorem c6_findfile_tail_and_quiet_miss (isReg : String → Bool)
    (garbage : ScmVal → String) (expandUser : String → String)
    (filename : String) (paths : List ScmVal) (suffixes : List String)
    (quiet : Bool) (hne : filename ≠ "")
    (hcls : classify filename = FileClass.searchPaths) :
    (∀ p rest w,
        Scm_FindFile isReg garbage expandUser filename paths suffixes quiet =
          .ok ⟨some p, rest, w⟩ →
        ∃ pre e, paths = pre ++ e :: rest ∧
          tryElem isReg garbage filename suffixes e = some p) ∧
      ((∀ e ∈ paths, tryElem isReg garbage filename suffixes e = none) →
        ∃ w, Scm_FindFile isReg garbage expandUser filename paths suffixes true =
          .ok ⟨none, [], w⟩) := by
  constructor
  · intro p rest w hok
    rw [Scm_FindFile, if_neg hne, hcls] at hok
    rcases hpl : path_loop isReg garbage filename suffixes paths with ⟨r, tl, wn⟩
    rw [hpl] at hok
    cases r with
    | some hit =>
      have hinj : hit = p ∧ tl = rest := by
        simp only [Except.ok.injEq, FFOut.mk.injEq, Option.some.injEq] at hok
        exact ⟨hok.1, hok.2.1⟩
      obtain ⟨rfl, rfl⟩ := hinj
      exact path_loop_hit_tail isReg garbage filename suffixes paths _ _ _ hpl
    | none =>
      cases quiet <;> simp at hok
  · intro hmiss
    obtain ⟨h1, h2⟩ := path_loop_all_miss isReg garbage filename suffixes paths hmiss
    refine ⟨(path_loop isReg garbage filename suffixes paths).2.2, ?_⟩
    rw [Scm_FindFile, if_neg hne, hcls]
    rcases hpl : path_loop isReg garbage filename suffixes paths with ⟨r, tl, wn⟩
    rw [hpl] at h1 h2
    dsimp only at h1 h2
    subst h1
    subst h2
    rfl

/-- Witness for C6: two string directories, a hit in the second leaves an
empty tail; and with no file present the quiet miss returns `#f` with empty
paths. -/
theorem c6_findfile_tail_and_quiet_miss_witness :
    (("a" : String) ≠ "" ∧ classify "a" = FileClass.searchPaths) ∧
      ((∀ p rest w,
          Scm_FindFile (fun s => s == "d/a.scm") (fun _ => "") id "a"
              [ScmVal.str "c", ScmVal.str "d"] [".scm"] true =
            .ok ⟨some p, rest, w⟩ →
          ∃ pre e, [ScmVal.str "c", ScmVal.str "d"] = pre ++ e :: rest ∧
            tryElem (fun s => s == "d/a.scm") (fun _ => "") "a" [".scm"] e = some p) ∧
        ((∀ e ∈ [ScmVal.str "c", ScmVal.str "d"],
            tryElem (fun s => s == "d/a.scm") (fun _ => "") "a" [".scm"] e = none) →
          ∃ w, Scm_FindFile (fun s => s == "d/a.scm") (fun _ => "") id "a"
              [ScmVal.str "c", ScmVal.str "d"] [".scm"] true =
            .ok ⟨none, [], w⟩)) :=
  ⟨⟨by decide, by decide⟩,
    c6_findfile_tail_and_quiet_miss (fun s => s == "d/a.scm") (fun _ => "") id
      "a" [ScmVal.str "c", ScmVal.str "d"] [".scm"] true (by decide) (by decide)⟩

/-- C4: the claim states a non-string path element is skipped and never
contributes a candidate path.  The source only warns: the loop body still
runs, casting the element with `SCM_STRING` (undefined behavior) and using
it as the candidate directory.  Here the lone path element is the pair
`("x" . vm 1)`; the bytes the cast yields are `"G"`, the file `G/a` exists,
and `find-file` returns it — one warning was issued, yet the non-string
element produced the hit instead of being skipped. -/
theorem c4_nonstring_element_contributes_candidate :
    Scm_FindFile (fun s => s == "G/a") (fun _ => "G") id "a"
        [ScmVal.pairV (ScmVal.str "x") (ScmVal.vmV 1)] [] true =
      .ok ⟨some "G/a", [], 1⟩ := by
  rfl

/-!
Initializer-name derivation for dynamic loading: `get_dynload_initfn`
(load.c:649–668) and the explicit-name branch of `Scm_DynLoad`
(load.c:793–804).  C strings are `List Char` (bytes, NUL excluded); the
C-locale `isalnum`/`tolower` are ASCII and coincide with `Char.isAlphanum` /
`Char.toLower`. -/

/-- `DYNLOAD_PREFIX` (load.c:647). -/
def dynloadPrefixChars : List Char := "_Scm_Init_".data

/-- The `strrchr(filename, CHR_SLASH)` step of `get_dynload_initfn`: the part of
the string after the last `/` (the whole string when there is none). -/
def after_last_slash : List Char → List Char
  | [] => []
  | c :: rest =>
    if rest.any (fun x => x == '/') then after_last_slash rest
    else if c == '/' then rest
    else c :: rest

/-- The `strchr(head, CHR_DOT)` cut of `get_dynload_initfn` combined with the
copy loop bound: the part of the basename before its first `.` (everything
when there is no dot). -/
def until_first_dot : List Char → List Char
  | [] => []
  | c :: rest => if c == '.' then [] else c :: until_first_dot rest

/-- `get_dynload_initfn` (load.c:649–668): `_Scm_Init_` followed by the
basename cut at its first dot, each byte lowercased when alphanumeric and
replaced by `_` otherwise (`if (isalnum(*s)) *d = tolower(*s); else
*d = '_';`). -/
def get_dynload_initfn (filename : List Char) : List Char :=
  dynloadPrefixChars ++
    (until_first_dot (after_last_slash filename)).map
      (fun c => if c.isAlphanum then c.toLower else '_')

/-- The initializer name `Scm_DynLoad` uses (load.c:793–804): an explicit
name gets `_` prepended; otherwise it is derived from the requested
pathname by `get_dynload_initfn`. -/
def dynload_initname (initfnArg : Option (List Char)) (reqname : List Char) :
    List Char :=
  match initfnArg with
  | some s => '_' :: s
  | none => get_dynload_initfn reqname

/-- Spec-side basename: the longest suffix free of `/`. -/
def basenameSpec (l : List Char) : List Char :=
  (l.reverse.takeWhile (fun c => c != '/')).reverse

/-- Spec-side stem: the basename with its first dot and following suffix
removed. -/
def stemSpec (filename : List Char) : List Char :=
  (basenameSpec filename).takeWhile (fun c => c != '.')

/-- The initializer symbol as the spec words it: `_Scm_Init_<stem>`, the stem
folded to lowercase with every non-alphanumeric byte replaced by `_`. -/
def initfnNameSpec (filename : List Char) : List Char :=
  "_Scm_Init_".data ++
    (stemSpec filename).map (fun c => if c.isAlphanum then c.toLower else '_')

theorem takeWhile_append_all {α : Type} (p : α → Bool) (xs ys : List α) :
    (xs ++ ys).takeWhile p =
      if xs.all p then xs ++ ys.takeWhile p else xs.takeWhile p := by
  induction xs with
  | nil => simp
  | cons x xt ih =>
    cases hx : p x with
    | true =>
      cases hall : xt.all p <;>
        simp [List.cons_append, List.takeWhile_cons, hx, ih, hall, List.all_cons]
    | false =>
      simp [List.takeWhile_cons, hx, List.all_cons]

theorem after_last_slash_eq_basenameSpec (l : List Char) :
    after_last_slash l = basenameSpec l := by
  induction l with
  | nil => rfl
  | cons c rest ih =>
    rw [after_last_slash]
    cases hc : rest.any (fun x => x == '/') with
    | true =>
      have hall : rest.reverse.all (fun c => c != '/') = false := by
        rcases (by simpa [List.any_eq_true] using hc : ∃ x ∈ rest, x = '/') with
          ⟨x, hx, rfl⟩
        rw [Bool.eq_false_iff]
        intro hAll
        have hm := (List.all_eq_true.mp hAll) '/' (by simpa using hx)
        simp at hm
      rw [if_pos rfl, ih]
      unfold basenameSpec
      rw [List.reverse_cons, takeWhile_append_all, hall]
      simp
    | false =>
      have hall : rest.reverse.all (fun c => c != '/') = true := by
        rw [List.all_eq_true]
        intro x hx
        have hxm : x ∈ rest := List.mem_reverse.mp hx
        have hne : ¬ x = '/' := by
          intro hcontr
          subst hcontr
          have : rest.any (fun x => x == '/') = true := by
            rw [List.any_eq_true]
            exact ⟨_, hxm, by simp⟩
          rw [hc] at this
          exact absurd this (by decide)
        simpa using hne
      rw [if_neg (by simp [hc])]
      unfold basenameSpec
      rw [List.reverse_cons, takeWhile_append_all, hall, if_pos rfl]
      cases hcc : (c == '/') with
      | true =>
        rw [if_pos rfl]
        rw [beq_iff_eq] at hcc
        subst hcc
        simp
      | false =>
        rw [if_neg (by simp [hcc])]
        have : (c != '/') = true := by simp [bne, hcc]
        simp [List.takeWhile_cons, this]

theorem until_first_dot_eq_takeWhile (l : List Char) :
    until_first_dot l = l.takeWhile (fun c => c != '.') := by
  induction l with
  | nil => rfl
  | cons c rest ih =>
    rw [until_first_dot]
    cases hcc : (c == '.') with
    | true =>
      rw [if_pos rfl]
      have : (c != '.') = false := by simp [bne, hcc]
      simp [List.takeWhile_cons, this]
    | false =>
      rw [if_neg (by simp [hcc])]
      have : (c != '.') = true := by simp [bne, hcc]
      simp [List.takeWhile_cons, this, ih]

/-- C5: with no explicit initializer name, `dyn-load` derives exactly
`_Scm_Init_<stem>`, where the stem is the basename of the requested path cut
at its first dot, lowercased, with non-alphanumeric bytes replaced by `_`. -/
theorem c5_dynload_initname_derivation (reqname : List Char) :
    dynload_initname none reqname = initfnNameSpec reqname := by
  unfold dynload_initname get_dynload_initfn initfnNameSpec stemSpec
  rw [after_last_slash_eq_basenameSpec, until_first_dot_eq_takeWhile]
  rfl

/-!
Load session: `Scm_VMLoadFromPort` (load.c:170–219) and its cleanup
`load_after` (load.c:126–149).  The thread-local load state of the VM is the
five fields the session saves into its `load_packet` and `load_after`
restores.  Reading and evaluating (`load_cc`/`load_body`) are external; the
whole read-eval loop is the parameter `body`, which receives the session
state and returns the state it left behind together with a normal result or
an error.  `Scm_VMDynamicWindC(NULL, load_body, load_after, p)` guarantees
`load_after` runs on every exit, normal or abnormal, which is what the
composition below encodes. -/

/-- The thread-local load state of a VM: current module, `load_port`,
`load_history`, `load_next` and `evalSituation`. -/
structure VMLoadState where
  module : Nat
  loadPort : ScmVal
  loadHistory : List ScmVal
  loadNext : List ScmVal
  evalSituation : Nat
deriving DecidableEq, Repr

/-- `struct load_packet` (load.c:115–123), the saved previous values. -/
structure load_packet where
  prev_module : Nat
  prev_port : ScmVal
  prev_history : List ScmVal
  prev_next : List ScmVal
  prev_situation : Nat
deriving DecidableEq, Repr

/-- `load_after` (load.c:126–149): restore every saved field (the port close,
unlock and load statistics are external effects with no bearing on the
thread-local load state). -/
def load_after (p : load_packet) (_after_body : VMLoadState) : VMLoadState :=
  { module := p.prev_module, loadPort := p.prev_port,
    loadHistory := p.prev_history, loadNext := p.prev_next,
    evalSituation := p.prev_situation }

/-- The `environment` argument of `Scm_VMLoadFromPort`: a module, `#f` or
unbound (use the current module), or anything else (an error). -/
inductive EnvArg where
  | moduleEnv (m : Nat) | falseEnv | unboundEnv | badEnv
deriving DecidableEq, Repr

/-- `SCM_VM_LOADING` (vm.h, outside this file): the evaluation-situation tag
installed for the session; only its identity matters here. -/
def SCM_VM_LOADING : Nat := 1

/-- `Scm_VMLoadFromPort` (load.c:170–219).  `isInput`/`isClosed` are the port
predicates of the sanity checks, `portLine` is `Scm_PortLine`.  After the
checks, the previous state is packed, the session state is published (new
port, history entry pushed, `load_next`, module, `SCM_VM_LOADING`), the body
runs, and `load_after` restores the packet on either kind of exit. -/
def Scm_VMLoadFromPort (isInput isClosed : Nat → Bool) (portLine : Nat → Nat)
    (body : VMLoadState → VMLoadState × Except Unit ScmVal) (port : Nat)
    (next_paths : List ScmVal) (env : EnvArg) (s : VMLoadState) :
    VMLoadState × Except Unit ScmVal :=
  if !(isInput port) then (s, .error ())
  else if isClosed port then (s, .error ())
  else
    match env with
    | .badEnv => (s, .error ())
    | _ =>
      let module := match env with | .moduleEnv m => m | _ => s.module
      let pk : load_packet :=
        ⟨s.module, s.loadPort, s.loadHistory, s.loadNext, s.evalSituation⟩
      let port_info : ScmVal :=
        match s.loadPort with
        | .portV q => .pairV (.portV q) (.pairV (.intV (portLine q)) .nilV)
        | _ => .pairV .falseV .nilV
      let s1 : VMLoadState :=
        { module := module, loadPort := .portV port,
          loadHistory := port_info :: s.loadHistory, loadNext := next_paths,
          evalSituation := SCM_VM_LOADING }
      let z := body s1
      (load_after pk z.1, z.2)

/-- C7: on every exit from `load-from-stream` — normal completion or an error
from reading/evaluation (the body's `Except.error`), and also the early
sanity-check errors — the caller's thread-local load state (module, load
port, history, remaining paths, evaluation situation) equals its value
before entry, whatever the body did to the session state. -/
theorem c7_load_from_port_restores_state (isInput isClosed : Nat → Bool)
    (portLine : Nat → Nat) (body : VMLoadState → VMLoadState × Except Unit ScmVal)
    (port : Nat) (next_paths : List ScmVal) (env : EnvArg) (s : VMLoadState) :
    (Scm_VMLoadFromPort isInput isClosed portLine body port next_paths env s).1 = s := by
  unfold Scm_VMLoadFromPort
  cases hin : isInput port <;> cases hcl : isClosed port <;>
    cases env <;> simp [load_after]

/-!
Dynamic-object registry: `Scm_DynLoad` (load.c:770–904), `make_dlobj`
(load.c:670–681), `find_or_add_dlobj` (load.c:683–696) and the state machine
of the `SCM_UNWIND_PROTECT` block (load.c:834–895).  The four dl-shim
functions and the initializer call are oracles; VMs are identified by `Nat`.
The model is sequential: each `Scm_DynLoad` call runs to completion, so the
`SCM_INTERNAL_COND_WAIT` branch (another thread still driving the record) is
represented by the distinguished outcome `wouldBlock`. -/

/-- `enum dlobj_state` (load.c:614–618). -/
inductive DLState where
  | dlNone | dlLoaded | dlInitialized
deriving DecidableEq, Repr

/-- Position of a state in the NONE → LOADED → INITIALIZED lifecycle. -/
def DLState.rank : DLState → Nat
  | .dlNone => 0
  | .dlLoaded => 1
  | .dlInitialized => 2

/-- `struct dlobj_rec` (load.c:620–629); the `next` chain is the registry
list itself, and the per-record mutex/condvar live outside the model. -/
structure dlobj where
  path : String
  state : DLState
  handle : Option Nat
  initfn : Option Nat
  loader : Option Nat
deriving DecidableEq, Repr

/-- Outcomes the dl_* shim and the initializer can produce, per call:
`dl_open` yields a handle or null, `dl_sym` an address or null, and the
initializer either returns or raises (arbitrary interpreter code). -/
structure DLOracle where
  dl_open : String → Option Nat
  dl_sym : Nat → String → Option Nat
  initfnOk : Nat → Bool

/-- Errors `Scm_DynLoad` can raise. -/
inductive DLErr where
  | badFilename          -- propagated from find-file (empty filename)
  | cantFindModule       -- load.c:778 "can't find dlopen-able module"
  | linkFailed           -- load.c:850/852 dl_open failure
  | initfnMissing        -- load.c:865 neither symbol found
  | initfnRaised         -- error raised inside the initializer
  | assertFailed         -- SCM_ASSERT(dlo->initfn != NULL), load.c:872
  | wouldBlock           -- sequential stand-in for the condition wait
deriving DecidableEq, Repr

/-- The switch of the `SCM_UNWIND_PROTECT` block (load.c:837–888):
from NONE, `dl_open`; on success look up the initializer first without and
then with the leading underscore, `dl_close` on double failure; on success
record handle, initializer and LOADED, then fall through to run the
initializer and reach INITIALIZED. -/
def drive_state_machine (o : DLOracle) (initname : String) (d : dlobj) :
    dlobj × Except DLErr Unit :=
  match d.state with
  | .dlNone =>
    match o.dl_open d.path with
    | none => ({ d with handle := none }, .error .linkFailed)
    | some h =>
      let fn? :=
        match o.dl_sym h (initname.drop 1) with
        | some fn => some fn
        | none => o.dl_sym h initname
      match fn? with
      | none => ({ d with handle := none }, .error .initfnMissing)
      | some fn =>
        let d1 : dlobj :=
          { d with handle := some h, initfn := some fn, state := .dlLoaded }
        if o.initfnOk fn then ({ d1 with state := .dlInitialized }, .ok ())
        else (d1, .error .initfnRaised)
  | .dlLoaded =>
    match d.initfn with
    | none => (d, .error .assertFailed)
    | some fn =>
      if o.initfnOk fn then ({ d with state := .dlInitialized }, .ok ())
      else (d, .error .initfnRaised)
  | .dlInitialized => (d, .ok ())

/-- The protected region plus its finalization: on success and on error alike
(load.c:889–901) the loader field is cleared and waiters broadcast. -/
def drive_protected (o : DLOracle) (initname : String) (d : dlobj) :
    dlobj × Except DLErr Unit :=
  let z := drive_state_machine o initname d
  ({ z.1 with loader := none }, z.2)

/-- Registry lookup by canonical path (`find_or_add_dlobj`'s strcmp scan). -/
def findDlobj (reg : List dlobj) (path : String) : Option dlobj :=
  reg.find? (fun d => d.path == path)

/-- In-place mutation of the (unique) record with the given path: replace the
first match. -/
def replaceDlobj (path : String) (d' : dlobj) : List dlobj → List dlobj
  | [] => []
  | d :: rest =>
    if d.path == path then d' :: rest
    else d :: replaceDlobj path d' rest

/-- `Scm_DynLoad` (load.c:770–904) in the sequential model.  The filename is
resolved on the dyn-load path with the DSO suffixes and the quiet flag set
(`Scm_FindFile(filename, &load_paths, ldinfo.dso_suffixes, TRUE)`); a miss
raises "can't find dlopen-able module" regardless of the caller's arguments.
The resolved name is both the canonical path and (libtool `.la` redirection
being compiled out) the requested name the initializer symbol is derived
from.  A fresh record is interned and driven; a pre-existing INITIALIZED
record returns immediately; an abandoned record (loader null) is taken over
and driven; otherwise the caller would block on the record's condition
variable.  The `export_` argument of the C function is unused. -/
def Scm_DynLoad (o : DLOracle) (isReg : String → Bool) (garbage : ScmVal → String)
    (expandUser : String → String) (dynPaths : List ScmVal)
    (dsoSuffixes : List String) (filename : String)
    (initfnArg : Option String) (_exportFlag : Bool) (self : Nat)
    (reg : List dlobj) : List dlobj × Except DLErr Unit :=
  match Scm_FindFile isReg garbage expandUser filename dynPaths dsoSuffixes true with
  | .error _ => (reg, .error .badFilename)
  | .ok out =>
    match out.result with
    | none => (reg, .error .cantFindModule)
    | some truename =>
      let initname : String :=
        ⟨dynload_initname (initfnArg.map String.data) truename.data⟩
      match findDlobj reg truename with
      | none =>
        let newdlo : dlobj :=
          { path := truename, state := .dlNone, handle := none,
            initfn := none, loader := some self }
        let z := drive_protected o initname newdlo
        (z.1 :: reg, z.2)
      | some dlo =>
        if dlo.state = .dlInitialized then (reg, .ok ())
        else
          match dlo.loader with
          | some _ => (reg, .error .wouldBlock)
          | none =>
            let z := drive_protected o initname { dlo with loader := some self }
            (replaceDlobj truename z.1 reg, z.2)

/-- One `dynamic-load` invocation with all of its inputs, for stating
properties of call sequences. -/
structure DynLoadCall where
  oracle : DLOracle
  isReg : String → Bool
  garbage : ScmVal → String
  expandUser : String → String
  dynPaths : List ScmVal
  dsoSuffixes : List String
  filename : String
  initfnArg : Option String
  exportFlag : Bool
  self : Nat

/-- Registry effect of one call. -/
def applyDynLoadCall (c : DynLoadCall) (reg : List dlobj) : List dlobj :=
  (Scm_DynLoad c.oracle c.isReg c.garbage c.expandUser c.dynPaths c.dsoSuffixes
    c.filename c.initfnArg c.exportFlag c.self reg).1

/-- Registry after a sequence of `dynamic-load` calls. -/
def runDynLoads (calls : List DynLoadCall) (reg : List dlobj) : List dlobj :=
  calls.foldl (fun r c => applyDynLoadCall c r) reg

/-- The state machine never lowers the lifecycle state. -/
theorem drive_state_machine_monotone (o : DLOracle) (initname : String)
    (d : dlobj) :
    d.state.rank ≤ (drive_state_machine o initname d).1.state.rank := by
  obtain ⟨dp, ds, dh, df, dl⟩ := d
  cases ds with
  | dlNone => exact Nat.zero_le _
  | dlLoaded =>
    cases df with
    | none => simp [drive_state_machine, DLState.rank]
    | some fn =>
      cases hi : o.initfnOk fn <;> simp [drive_state_machine, hi, DLState.rank]
  | dlInitialized => simp [drive_state_machine, DLState.rank]

/-- The state machine never changes the record's path. -/
theorem drive_state_machine_path (o : DLOracle) (initname : String) (d : dlobj) :
    (drive_state_machine o initname d).1.path = d.path := by
  obtain ⟨dp, ds, dh, df, dl⟩ := d
  cases ds with
  | dlNone =>
    cases ho : o.dl_open dp with
    | none => simp [drive_state_machine, ho]
    | some h =>
      cases h1 : o.dl_sym h (initname.drop 1) with
      | some fn =>
        cases hi : o.initfnOk fn <;> simp [drive_state_machine, ho, h1, hi]
      | none =>
        cases h2 : o.dl_sym h initname with
        | none => simp [drive_state_machine, ho, h1, h2]
        | some fn =>
          cases hi : o.initfnOk fn <;> simp [drive_state_machine, ho, h1, h2, hi]
  | dlLoaded =>
    cases df with
    | none => simp [drive_state_machine]
    | some fn =>
      cases hi : o.initfnOk fn <;> simp [drive_state_machine, hi]
  | dlInitialized => simp [drive_state_machine]

theorem drive_protected_monotone (o : DLOracle) (initname : String) (d : dlobj) :
    d.state.rank ≤ (drive_protected o initname d).1.state.rank := by
  unfold drive_protected
  simpa using drive_state_machine_monotone o initname d

theorem drive_protected_path (o : DLOracle) (initname : String) (d : dlobj) :
    (drive_protected o initname d).1.path = d.path := by
  unfold drive_protected
  simpa using drive_state_machine_path o initname d

/-- Lookup after replacing the first record carrying `q`: the replaced record
if `q` is the looked-up path, the old result otherwise (provided the
replacement still carries path `q`). -/
theorem findDlobj_replaceDlobj (reg : List dlobj) (q : String) (d' : dlobj)
    (hq : d'.path = q) (p : String) :
    findDlobj (replaceDlobj q d' reg) p =
      if (q == p) then (if (findDlobj reg q).isSome then some d' else none)
      else findDlobj reg p := by
  induction reg with
  | nil =>
    cases hqp : (q == p) <;> simp [findDlobj, replaceDlobj, hqp]
  | cons d rest ih =>
    by_cases hdq : d.path = q
    · subst hdq
      cases hqp : (d.path == p) with
      | true =>
        rw [beq_iff_eq] at hqp
        simp [replaceDlobj, findDlobj, hqp, hq]
      | false =>
        have hd'p : (d'.path == p) = false := by
          rw [hq]; exact hqp
        simp [replaceDlobj, findDlobj, hqp, hd'p]
    · have hdqb : (d.path == q) = false := by
        simpa using hdq
      cases hdp : (d.path == p) with
      | true =>
        rw [beq_iff_eq] at hdp
        subst hdp
        have hqp : (q == d.path) = false := by
          simp only [beq_eq_false_iff_ne, ne_eq]
          intro hcontr
          exact hdq hcontr.symm
        simp [replaceDlobj, findDlobj, hdqb, hqp, List.find?_cons]
      | false =>
        simp only [replaceDlobj, hdqb, Bool.false_eq_true, if_false,
          findDlobj, List.find?_cons, hdp]
        exact ih

/-- Single-call monotonicity: any record present before a `dynamic-load`
call is present afterwards with a state at least as far along. -/
theorem dynload_call_monotone (c : DynLoadCall) (reg : List dlobj)
    (p : String) (d : dlobj) (h : findDlobj reg p = some d) :
    ∃ d', findDlobj (applyDynLoadCall c reg) p = some d' ∧
      d.state.rank ≤ d'.state.rank := by
  cases hff : Scm_FindFile c.isReg c.garbage c.expandUser c.filename c.dynPaths
      c.dsoSuffixes true with
  | error e =>
    have heq : applyDynLoadCall c reg = reg := by
      simp [applyDynLoadCall, Scm_DynLoad, hff]
    rw [heq]
    exact ⟨d, h, Nat.le_refl _⟩
  | ok out =>
    cases hres : out.result with
    | none =>
      have heq : applyDynLoadCall c reg = reg := by
        simp [applyDynLoadCall, Scm_DynLoad, hff, hres]
      rw [heq]
      exact ⟨d, h, Nat.le_refl _⟩
    | some truename =>
      cases hfind : findDlobj reg truename with
      | none =>
        have heq : applyDynLoadCall c reg =
            (drive_protected c.oracle
              (⟨dynload_initname (c.initfnArg.map String.data) truename.data⟩ : String)
              { path := truename, state := .dlNone, handle := none,
                initfn := none, loader := some c.self }).1 :: reg := by
          simp [applyDynLoadCall, Scm_DynLoad, hff, hres, hfind]
        rw [heq]
        have hpt : ¬ truename = p := by
          intro hcontr
          subst hcontr
          rw [h] at hfind
          exact absurd hfind (by simp)
        have hz : ((drive_protected c.oracle
            (⟨dynload_initname (c.initfnArg.map String.data) truename.data⟩ : String)
            { path := truename, state := .dlNone, handle := none,
              initfn := none, loader := some c.self }).1.path == p) = false := by
          rw [drive_protected_path]
          simpa using hpt
        exact ⟨d, by simpa [findDlobj, List.find?_cons, hz] using h, Nat.le_refl _⟩
      | some dlo =>
        by_cases hinit : dlo.state = DLState.dlInitialized
        · have heq : applyDynLoadCall c reg = reg := by
            simp [applyDynLoadCall, Scm_DynLoad, hff, hres, hfind, hinit]
          rw [heq]
          exact ⟨d, h, Nat.le_refl _⟩
        · cases hld : dlo.loader with
          | some t =>
            have heq : applyDynLoadCall c reg = reg := by
              simp [applyDynLoadCall, Scm_DynLoad, hff, hres, hfind, hinit, hld]
            rw [heq]
            exact ⟨d, h, Nat.le_refl _⟩
          | none =>
            have hdlopath : dlo.path = truename := by
              have hx := List.find?_some (by simpa [findDlobj] using hfind :
                List.find? (fun x => x.path == truename) reg = some dlo)
              simpa using hx
            have heq : applyDynLoadCall c reg =
                replaceDlobj truename
                  (drive_protected c.oracle
                    (⟨dynload_initname (c.initfnArg.map String.data) truename.data⟩ : String)
                    { dlo with loader := some c.self }).1 reg := by
              simp [applyDynLoadCall, Scm_DynLoad, hff, hres, hfind, hinit, hld]
            have hpath : (drive_protected c.oracle
                (⟨dynload_initname (c.initfnArg.map String.data) truename.data⟩ : String)
                { dlo with loader := some c.self }).1.path = truename := by
              rw [drive_protected_path]
              exact hdlopath
            rw [heq, findDlobj_replaceDlobj reg truename _ hpath p]
            cases hqp : (truename == p) with
            | true =>
              rw [beq_iff_eq] at hqp
              subst hqp
              rw [h] at hfind
              injection hfind with hdd
              subst hdd
              refine ⟨(drive_protected c.oracle
                (⟨dynload_initname (c.initfnArg.map String.data) truename.data⟩ : String)
                { d with loader := some c.self }).1, ?_, ?_⟩
              · rw [h]
                simp
              · have hmono := drive_protected_monotone c.oracle
                  (⟨dynload_initname (c.initfnArg.map String.data) truename.data⟩ : String)
                  { d with loader := some c.self }
                simpa using hmono
            | false =>
              refine ⟨d, ?_, Nat.le_refl _⟩
              simp only [hqp, Bool.false_eq_true, if_false]
              exact h

/-- C8: along any sequence of `dyn-load` calls — including ones that fail in
the open, symbol-lookup or initializer step — every dynamic-object record's
state only ever advances along NONE → LOADED → INITIALIZED, never
regressing. -/
theorem c8_dlobj_state_monotone (calls : List DynLoadCall) (reg : List dlobj)
    (p : String) (d : dlobj) (h : findDlobj reg p = some d) :
    ∃ d', findDlobj (runDynLoads calls reg) p = some d' ∧
      d.state.rank ≤ d'.state.rank := by
  induction calls generalizing reg d with
  | nil => exact ⟨d, h, Nat.le_refl _⟩
  | cons c cs ih =>
    obtain ⟨d1, h1, hle1⟩ := dynload_call_monotone c reg p d h
    obtain ⟨d2, h2, hle2⟩ := ih (applyDynLoadCall c reg) d1 h1
    exact ⟨d2, h2, Nat.le_trans hle1 hle2⟩

/-- A fresh NONE record for `./p`, input of the C8 witness. -/
def dlobjW : dlobj where
  path := "./p"
  state := .dlNone
  handle := none
  initfn := none
  loader := none

/-- A concrete `dyn-load` call resolving `./p` with an always-succeeding
shim, input of the C8 witness. -/
def dynLoadCallW : DynLoadCall where
  oracle := ⟨fun _ => some 7, fun _ _ => some 9, fun _ => true⟩
  isReg := fun s => s == "./p"
  garbage := fun _ => ""
  expandUser := id
  dynPaths := []
  dsoSuffixes := []
  filename := "./p"
  initfnArg := none
  exportFlag := false
  self := 1

/-- Witness for C8: a NONE record for `./p` is present; one `dyn-load` call
whose shim succeeds leaves the record present with a state at least NONE. -/
theorem c8_dlobj_state_monotone_witness :
    findDlobj [dlobjW] "./p" = some dlobjW ∧
      ∃ d', findDlobj (runDynLoads [dynLoadCallW] [dlobjW]) "./p" = some d' ∧
        dlobjW.state.rank ≤ d'.state.rank :=
  ⟨by rfl, c8_dlobj_state_monotone [dynLoadCallW] [dlobjW] "./p" dlobjW (by rfl)⟩

/-- C10: whenever the dyn-load path resolution misses (the internal
`find-file` call, made with the quiet flag, returns `#f`), `dynamic-load`
raises the "can't find dlopen-able module" error and leaves the registry
untouched — no caller argument (explicit initializer name, export flag,
thread) makes the lookup failure quiet. -/
theorem c10_dynload_unresolved_raises (o : DLOracle) (isReg : String → Bool)
    (garbage : ScmVal → String) (expandUser : String → String)
    (dynPaths : List ScmVal) (dsoSuffixes : List String) (filename : String)
    (initfnArg : Option String) (exportFlag : Bool) (self : Nat)
    (reg : List dlobj) (out : FFOut)
    (hff : Scm_FindFile isReg garbage expandUser filename dynPaths dsoSuffixes true =
      .ok out)
    (hmiss : out.result = none) :
    Scm_DynLoad o isReg garbage expandUser dynPaths dsoSuffixes filename
      initfnArg exportFlag self reg = (reg, .error .cantFindModule) := by
  unfold Scm_DynLoad
  rw [hff]
  dsimp only
  rw [hmiss]

/-- Witness for C10: with an empty dyn-load path nothing resolves; the quiet
find-file returns `#f` and `dynamic-load` raises the lookup error. -/
theorem c10_dynload_unresolved_raises_witness :
    Scm_FindFile (fun _ => false) (fun _ => "") id "x" [] [] true =
        .ok ⟨none, [], 0⟩ ∧
      (⟨none, [], 0⟩ : FFOut).result = none ∧
      Scm_DynLoad ⟨fun _ => none, fun _ _ => none, fun _ => false⟩
        (fun _ => false) (fun _ => "") id [] [] "x" none false 1 [] =
        ([], .error .cantFindModule) :=
  ⟨by rfl, by rfl,
    c10_dynload_unresolved_raises ⟨fun _ => none, fun _ _ => none, fun _ => false⟩
      (fun _ => false) (fun _ => "") id [] [] "x" none false 1 []
      ⟨none, [], 0⟩ (by rfl) (by rfl)⟩

end Load
